import Mathlib

/-!
Verification of the rakyll/trace tracing library.

This file gives a shallow embedding of the parts of the library that the
stated properties are about, and proves or refutes each property against
that embedding.  Go machine integers are modelled as natural numbers with
explicit reduction modulo 2^64; Go panics are modelled as the error case of
an Except value; Go contexts (immutable key/value chains) are modelled as an
inductive chain of withValue nodes; Go maps are modelled as association
lists with last-write-wins update.
-/

namespace RakyllTrace

/-! ## Span identifier generation (src/gcp/trace.go, src/unnamed/part_007)

The Go code keeps a process-wide counter and increment, both seeded
randomly, with the increment forced odd by an or with 1.  nextSpanID
performs an atomic fetch-and-add and repeats the add when the result is
exactly zero.  We model the sequential behaviour: the counter state is a
natural number below 2^64 and each call transforms it.
-/

/-- Modulus of Go uint64 arithmetic. -/
def wordSize : Nat := 2 ^ 64

theorem wordSize_pos : 0 < wordSize := by norm_num [wordSize]

theorem two_dvd_wordSize : 2 ∣ wordSize := by
  exact dvd_pow_self 2 (by norm_num)

/-- Embeds nextSpanID (src/gcp/trace.go lines 28-34): one call with counter
state c and increment inc.  The Go loop `for id == 0` re-runs the atomic add
while the result is zero; when inc is odd, a zero result is followed by
(0 + inc) mod 2^64 which is odd and hence nonzero, so the loop body runs at
most twice and is unfolded here into its two possible iterations.  The
returned identifier equals the new counter state. -/
def nextSpanID (inc c : Nat) : Nat :=
  let c1 := (c + inc) % wordSize
  if c1 = 0 then (c1 + inc) % wordSize else c1

/-- One sequential call of nextSpanID on (counter, zero-skip count). -/
def genStep (inc : Nat) (p : Nat × Nat) : Nat × Nat :=
  (nextSpanID inc p.1, if (p.1 + inc) % wordSize = 0 then p.2 + 1 else p.2)

/-- Counter state and number of zero-skips after k sequential calls of
nextSpanID starting from counter c0. -/
def genState (inc c0 : Nat) : Nat → Nat × Nat
  | 0 => (c0 % wordSize, 0)
  | k + 1 => genStep inc (genState inc c0 k)

/-- Identifier returned by the k-th sequential call of nextSpanID (k ≥ 1). -/
def nthSpanID (inc c0 k : Nat) : Nat := (genState inc c0 k).1

theorem nextSpanID_ne_zero (inc c : Nat) (hinc : inc % 2 = 1) :
    nextSpanID inc c ≠ 0 := by
  unfold nextSpanID
  by_cases h : (c + inc) % wordSize = 0
  · simp only [h, if_pos, Nat.zero_add]
    intro h2
    have hdvd : wordSize ∣ inc := Nat.dvd_of_mod_eq_zero h2
    have h2d : (2 : Nat) ∣ inc := dvd_trans two_dvd_wordSize hdvd
    omega
  · simp [h]

/-- The counter after k calls is the arithmetic progression advanced by the
number of consumed raw add operations, k plus the number of zero-skips. -/
theorem genState_fst (inc c0 : Nat) :
    ∀ k, (genState inc c0 k).1
      = (c0 + (k + (genState inc c0 k).2) * inc) % wordSize := by
  intro k
  induction k with
  | zero => simp [genState]
  | succ k ih =>
    have key : ((genState inc c0 k).1 + inc) % wordSize
        = (c0 + ((k + (genState inc c0 k).2) + 1) * inc) % wordSize := by
      conv_lhs => rw [ih]
      rw [Nat.mod_add_mod]
      congr 1
      ring
    by_cases h : ((genState inc c0 k).1 + inc) % wordSize = 0
    · have h2 : (c0 + ((k + (genState inc c0 k).2) + 1) * inc) % wordSize = 0 := by
        rw [← key]
        exact h
      show (genStep inc (genState inc c0 k)).1
          = (c0 + ((k + 1) + (genStep inc (genState inc c0 k)).2) * inc) % wordSize
      simp only [genStep, nextSpanID, h, if_pos, Nat.zero_add]
      have harg : c0 + (k + 1 + ((genState inc c0 k).2 + 1)) * inc
          = (c0 + ((k + (genState inc c0 k).2) + 1) * inc) + inc := by ring
      rw [harg, ← Nat.mod_add_mod, h2, Nat.zero_add]
    · show (genStep inc (genState inc c0 k)).1
          = (c0 + ((k + 1) + (genStep inc (genState inc c0 k)).2) * inc) % wordSize
      simp only [genStep, nextSpanID, h, if_neg, if_false]
      rw [key]
      congr 1
      ring

/-- One call either keeps the skip count (no zero was produced) or increases
it by one, and a skip at call k+1 means the raw progression hits zero at raw
position k + skips + 1. -/
theorem genState_snd_step (inc c0 k : Nat) :
    ((genState inc c0 (k + 1)).2 = (genState inc c0 k).2
        ∧ (c0 + ((k + (genState inc c0 k).2) + 1) * inc) % wordSize ≠ 0)
    ∨ ((genState inc c0 (k + 1)).2 = (genState inc c0 k).2 + 1
        ∧ (c0 + ((k + (genState inc c0 k).2) + 1) * inc) % wordSize = 0) := by
  have key : ((genState inc c0 k).1 + inc) % wordSize
      = (c0 + ((k + (genState inc c0 k).2) + 1) * inc) % wordSize := by
    conv_lhs => rw [genState_fst inc c0 k]
    rw [Nat.mod_add_mod]
    congr 1
    ring
  by_cases h : ((genState inc c0 k).1 + inc) % wordSize = 0
  · right
    constructor
    · simp [genState, genStep, h]
    · rw [← key]
      exact h
  · left
    constructor
    · simp [genState, genStep, h]
    · rw [← key]
      exact h

/-- If any zero has been skipped by call k, there is a first skip: a call
j + 1 ≤ k at which the raw progression value c0 + (j + 1) * inc was divisible
by 2^64. -/
theorem genState_first_skip (inc c0 : Nat) :
    ∀ k, 1 ≤ (genState inc c0 k).2 →
      ∃ j, j < k ∧ (genState inc c0 j).2 = 0 ∧
        (c0 + (j + 1) * inc) % wordSize = 0 := by
  intro k
  induction k with
  | zero => intro h; simp [genState] at h
  | succ k ih =>
    intro h
    by_cases hz : 1 ≤ (genState inc c0 k).2
    · obtain ⟨j, hj, hj0, hjc⟩ := ih hz
      exact ⟨j, Nat.lt_succ_of_lt hj, hj0, hjc⟩
    · have hz0 : (genState inc c0 k).2 = 0 := by omega
      rcases genState_snd_step inc c0 k with ⟨heq, _⟩ | ⟨_, hc⟩
      · omega
      · refine ⟨k, Nat.lt_succ_self k, hz0, ?_⟩
        rw [hz0] at hc
        simpa using hc

/-- Within the first 2^64 - 1 calls, at most one zero is skipped: two skips
would require two raw positions a < b with 2^64 dividing both progression
values, forcing b - a ≥ 2^64, which does not fit in that window. -/
theorem genState_skips_le_one (inc c0 : Nat) (hco : Nat.Coprime wordSize inc) :
    ∀ k, k ≤ wordSize - 1 → (genState inc c0 k).2 ≤ 1 := by
  intro k
  induction k with
  | zero => intro _; simp [genState]
  | succ k ih =>
    intro hk
    have hk' : k ≤ wordSize - 1 := by omega
    have ihk := ih hk'
    rcases genState_snd_step inc c0 k with ⟨heq, _⟩ | ⟨heq, hc⟩
    · omega
    · by_cases hz : (genState inc c0 k).2 = 0
      · omega
      · exfalso
        have hz1 : (genState inc c0 k).2 = 1 := by omega
        obtain ⟨j, hj, _, hjc⟩ := genState_first_skip inc c0 k (by omega)
        rw [hz1] at hc
        have hd1 : wordSize ∣ c0 + (j + 1) * inc := Nat.dvd_of_mod_eq_zero hjc
        have hd2 : wordSize ∣ c0 + (k + 1 + 1) * inc := Nat.dvd_of_mod_eq_zero hc
        have hsub : wordSize ∣ (c0 + (k + 1 + 1) * inc) - (c0 + (j + 1) * inc) :=
          Nat.dvd_sub' hd2 hd1
        have hexp : (c0 + (k + 1 + 1) * inc) - (c0 + (j + 1) * inc)
            = (k + 1 - j) * inc := by
          rw [Nat.add_sub_add_left, ← Nat.sub_mul]
          congr 1
          omega
        rw [hexp] at hsub
        have hdvd : wordSize ∣ k + 1 - j := hco.dvd_of_dvd_mul_right hsub
        have hge : wordSize ≤ k + 1 - j := Nat.le_of_dvd (by omega) hdvd
        have hpos := wordSize_pos
        omega

/-- The skip count is monotone in the number of calls. -/
theorem genState_snd_mono (inc c0 : Nat) :
    ∀ a b, a ≤ b → (genState inc c0 a).2 ≤ (genState inc c0 b).2 := by
  intro a b
  induction b with
  | zero =>
    intro h
    have ha : a = 0 := Nat.le_zero.mp h
    subst ha
    exact Nat.le_refl _
  | succ b ih =>
    intro hab
    by_cases h : a ≤ b
    · have hb := ih h
      rcases genState_snd_step inc c0 b with ⟨heq, _⟩ | ⟨heq, _⟩ <;> omega
    · have ha : a = b + 1 := by omega
      subst ha
      exact Nat.le_refl _

/-- Values returned at distinct call indices in the first 2^64 - 1 calls are
distinct: the consumed raw positions i + skips differ, stay within a window
of width less than 2^64, and the increment is a unit modulo 2^64. -/
theorem nthSpanID_injective (inc c0 : Nat) (hco : Nat.Coprime wordSize inc)
    (i j : Nat) (hi : 1 ≤ i) (hij : i < j) (hj : j ≤ wordSize - 1) :
    nthSpanID inc c0 i ≠ nthSpanID inc c0 j := by
  intro heq
  unfold nthSpanID at heq
  rw [genState_fst, genState_fst] at heq
  have hmono : (genState inc c0 i).2 ≤ (genState inc c0 j).2 :=
    genState_snd_mono inc c0 i j (le_of_lt hij)
  have hzj1 : (genState inc c0 j).2 ≤ 1 := genState_skips_le_one inc c0 hco j hj
  set zi := (genState inc c0 i).2
  set zj := (genState inc c0 j).2
  have hlt : i + zi < j + zj := by omega
  have hle : c0 + (i + zi) * inc ≤ c0 + (j + zj) * inc := by
    have := Nat.mul_le_mul (le_of_lt hlt) (le_refl inc)
    omega
  have hmod : Nat.ModEq wordSize (c0 + (i + zi) * inc) (c0 + (j + zj) * inc) := heq
  have hdvd : wordSize ∣ (c0 + (j + zj) * inc) - (c0 + (i + zi) * inc) :=
    (Nat.modEq_iff_dvd' hle).mp hmod
  have hexp : (c0 + (j + zj) * inc) - (c0 + (i + zi) * inc)
      = ((j + zj) - (i + zi)) * inc := by
    rw [Nat.add_sub_add_left, ← Nat.sub_mul]
  rw [hexp] at hdvd
  have hdvd2 : wordSize ∣ (j + zj) - (i + zi) := hco.dvd_of_dvd_mul_right hdvd
  have hge : wordSize ≤ (j + zj) - (i + zi) := Nat.le_of_dvd (by omega) hdvd2
  have hpos := wordSize_pos
  omega

/-- An odd increment is coprime to the word modulus. -/
theorem coprime_wordSize_of_odd (inc : Nat) (hinc : inc % 2 = 1) :
    Nat.Coprime wordSize inc := by
  have h2 : Nat.Coprime 2 inc := (Nat.prime_two.coprime_iff_not_dvd).mpr (by omega)
  simpa [wordSize] using Nat.Coprime.pow_left 64 h2

/-- C1 (amended): with an odd increment, any N ≤ 2^64 - 1 sequential calls to
nextSpanID return pairwise distinct values, and every returned value is
nonzero.  (The claim's bound N ≤ 2^64 fails at N = 2^64: only 2^64 - 1
nonzero values exist, so the 2^64-th call necessarily repeats one; see the
counterexample below.) -/
theorem nextSpanID_pairwise_distinct_amended (inc c0 N : Nat)
    (hinc : inc % 2 = 1) (hN : N ≤ wordSize - 1) :
    (∀ i j, 1 ≤ i → i < j → j ≤ N → nthSpanID inc c0 i ≠ nthSpanID inc c0 j)
    ∧ (∀ k, 1 ≤ k → nthSpanID inc c0 k ≠ 0) := by
  have hco := coprime_wordSize_of_odd inc hinc
  constructor
  · intro i j hi hij hj
    exact nthSpanID_injective inc c0 hco i j hi hij (le_trans hj hN)
  · intro k hk
    obtain ⟨m, rfl⟩ : ∃ m, k = m + 1 := ⟨k - 1, by omega⟩
    show (genState inc c0 (m + 1)).1 ≠ 0
    simp only [genState, genStep]
    exact nextSpanID_ne_zero inc _ hinc

theorem nextSpanID_pairwise_distinct_amended_witness :
    nthSpanID 1 0 1 ≠ nthSpanID 1 0 2 ∧ nthSpanID 1 0 1 ≠ 0 :=
  ⟨(nextSpanID_pairwise_distinct_amended 1 0 2 (by decide) (by decide)).1
      1 2 (by decide) (by decide) (by decide),
   (nextSpanID_pairwise_distinct_amended 1 0 2 (by decide) (by decide)).2
      1 (by decide)⟩

/-- With increment 1 and counter starting at 0, no zero is produced within
the first 2^64 - 1 calls and the counter after k calls is exactly k. -/
theorem genState_one_zero : ∀ k, k ≤ wordSize - 1 → genState 1 0 k = (k, 0) := by
  intro k
  induction k with
  | zero => simp [genState]
  | succ k ih =>
    intro hk
    have hk' : k ≤ wordSize - 1 := by omega
    have hkM : k + 1 < wordSize := by
      have := wordSize_pos
      omega
    have hmod : (k + 1) % wordSize = k + 1 := Nat.mod_eq_of_lt hkM
    show genStep 1 (genState 1 0 k) = (k + 1, 0)
    rw [ih hk']
    simp [genStep, nextSpanID, hmod]

/-- C1 counterexample: with the odd increment 1 and initial counter 0, the
first call and the 2^64-th call both return the identifier 1, so N = 2^64
sequential calls are not pairwise distinct; the claim's bound N ≤ 2^64
fails at N = 2^64. -/
theorem nextSpanID_full_period_counterexample :
    ¬ (∀ i j, 1 ≤ i → i < j → j ≤ wordSize →
        nthSpanID 1 0 i ≠ nthSpanID 1 0 j) := by
  intro hall
  have h1 : nthSpanID 1 0 1 = 1 := by
    show (genState 1 0 1).1 = 1
    rw [genState_one_zero 1 (by norm_num [wordSize])]
  have h2 : nthSpanID 1 0 wordSize = 1 := by
    have hM : wordSize = (wordSize - 1) + 1 := by
      have := wordSize_pos
      omega
    show (genState 1 0 wordSize).1 = 1
    rw [hM]
    show (genStep 1 (genState 1 0 (wordSize - 1))).1 = 1
    rw [genState_one_zero (wordSize - 1) (le_refl _)]
    have hself : (wordSize - 1 + 1) % wordSize = 0 := by
      have h : wordSize - 1 + 1 = wordSize := by
        have := wordSize_pos
        omega
      rw [h, Nat.mod_self]
    simp only [genStep, nextSpanID, hself, if_pos, Nat.zero_add]
    rw [Nat.mod_eq_of_lt (by norm_num [wordSize])]
  exact hall 1 wordSize (le_refl 1) (by norm_num [wordSize]) (le_refl wordSize)
    (h1.trans h2.symm)

/-! ## Execution-context carrier (src/trace.go, src/minitrace/minitrace.go)

A Go context is an immutable chain: context.WithValue wraps the parent in a
new node, and Value walks the chain outward.  A Go run-time panic (here: the
single-result type assertion v.(T) applied to a nil or wrongly typed
interface value, or a method call through a nil interface) is modelled as
the error case of an Except value.
-/

/-- A Go run-time panic reachable in the embedded code. -/
inductive GoPanic where
  /-- Single-result type assertion v.(T) applied to a nil interface value. -/
  | nilTypeAssertion
  /-- Type assertion applied to an interface holding a different type. -/
  | wrongTypeAssertion
  /-- Method call through a nil interface value. -/
  | nilInterfaceCall
deriving DecidableEq

/-- A span of package trace (src/trace.go lines 31-34):
Span struct with ID []byte and Annotations map[string][]byte.
Bytes are modelled as naturals, the map as an association list. -/
structure TSpan where
  ID : List Nat
  Annotations : List (String × List Nat)
deriving DecidableEq

/-- Go map assignment m[k] = v on an association list with unique keys:
replaces the binding if the key is present, appends it otherwise. -/
def mapSet {α : Type} (m : List (String × α)) (k : String) (v : α) :
    List (String × α) :=
  match m with
  | [] => [(k, v)]
  | (k', v') :: rest => if k = k' then (k, v) :: rest else (k', v') :: mapSet rest k v

/-- A value stored in a context; spanPtr is the *Span stored under spanKey
(a nil pointer is allowed), raw stands for a value of any other type. -/
inductive GoVal where
  | spanPtr (s : Option TSpan)
  | raw (n : Nat)
deriving DecidableEq

/-- A Go context: Background or a context.WithValue node over a parent. -/
inductive GoCtx where
  | background
  | withValue (parent : GoCtx) (key : Nat) (val : GoVal)
deriving DecidableEq

/-- ctx.Value(key): walk the chain outward, nil (none) when no node binds
the key. -/
def GoCtx.value : GoCtx → Nat → Option GoVal
  | .background, _ => none
  | .withValue p k v, q => if q = k then some v else p.value q

/-- The package-private span key (src/trace.go line 159). -/
def spanKey : Nat := 0

/-- Embeds NewContext (src/trace.go lines 137-139): wraps ctx in a node
binding spanKey to the given *Span.  minitrace.NewContext (lines 26-28) is
the same code. -/
def NewContext (ctx : GoCtx) (s : Option TSpan) : GoCtx :=
  .withValue ctx spanKey (.spanPtr s)

/-- Embeds FromContext (src/trace.go lines 142-144):
`return ctx.Value(spanKey).(*Span)`.  The single-result type assertion
panics when ctx.Value returns nil (no span in the context) or a value of
another type; otherwise it returns the stored *Span.
minitrace.FromContext (lines 31-33) is the same code. -/
def FromContext (ctx : GoCtx) : Except GoPanic (Option TSpan) :=
  match ctx.value spanKey with
  | some (.spanPtr s) => .ok s
  | some (.raw _) => .error .wrongTypeAssertion
  | none => .error .nilTypeAssertion

/-- C5: reading the current span from the context returned by
NewContext(ctx, s) yields exactly s; the derived context is a new node that
embeds the original ctx unchanged, and every observation of any other key
on the derived context agrees with the original — the original context is
unaffected (value semantics). -/
theorem NewContext_sets_current_span (ctx : GoCtx) (s : Option TSpan) :
    FromContext (NewContext ctx s) = .ok s
    ∧ NewContext ctx s = GoCtx.withValue ctx spanKey (.spanPtr s)
    ∧ ∀ k, k ≠ spanKey → (NewContext ctx s).value k = ctx.value k := by
  refine ⟨rfl, rfl, ?_⟩
  intro k hk
  simp [NewContext, GoCtx.value, hk]

theorem NewContext_sets_current_span_witness :
    FromContext (NewContext .background (some ⟨[7], []⟩))
        = .ok (some ⟨[7], []⟩)
    ∧ (NewContext .background (some ⟨[7], []⟩)).value 1
        = GoCtx.background.value 1 :=
  ⟨(NewContext_sets_current_span .background (some ⟨[7], []⟩)).1,
   (NewContext_sets_current_span .background (some ⟨[7], []⟩)).2.2 1 (by decide)⟩

/-- C6 counterexample: on the background context, which carries no current
span, FromContext does not return normally reporting absence — the
unchecked type assertion on the nil ctx.Value result panics. -/
theorem FromContext_empty_counterexample :
    FromContext .background ≠ .ok none
    ∧ FromContext .background = .error .nilTypeAssertion := by
  constructor
  · intro h
    simp [FromContext, GoCtx.value] at h
  · rfl

/-- C6 (amended): on every context that carries no value under spanKey, the
current-span accessor FromContext panics through its unchecked type
assertion instead of returning normally with an absent span.  (The gcp
package's private contextSpan accessor, by contrast, checks for nil and
returns an absent span.) -/
theorem FromContext_absent_panics (ctx : GoCtx)
    (h : ctx.value spanKey = none) :
    FromContext ctx = .error .nilTypeAssertion := by
  unfold FromContext
  rw [h]

theorem FromContext_absent_panics_witness :
    FromContext .background = .error .nilTypeAssertion :=
  FromContext_absent_panics .background rfl

/-! ## HTTP propagation, second revision (src/unnamed/part_003, and the
same code in src/trace.go lines 212-222, 258-268)

The revision's Span.ToHTTPReq and FromHTTPReq test
`hc, ok := client.(HTTPCarrier)` and return the error "not supported" when
ok is TRUE; when ok is false they go on to call a method on hc, which is
the nil interface value left by the failed assertion, and panic.  An HTTP
request is modelled as an opaque token. -/

namespace V2

/-- The configured global client of the second revision; all that the
embedded code paths inspect is whether its dynamic type implements
HTTPCarrier (the carrier methods are never reached). -/
structure Client where
  isHTTPCarrier : Bool
deriving DecidableEq

/-- Embeds Span.ToHTTPReq (src/unnamed/part_003 lines 51-61): when the
client implements HTTPCarrier it returns (req, error "not supported");
otherwise it calls ToHTTPReq on the nil interface hc and panics. -/
def ToHTTPReq (c : Client) (_id : List Nat) (req : Nat) :
    Except GoPanic (Nat × Option String) :=
  if c.isHTTPCarrier then .ok (req, some "not supported")
  else .error .nilInterfaceCall

/-- Embeds FromHTTPReq (src/unnamed/part_003 lines 97-107): when the client
implements HTTPCarrier it returns (nil, error "not supported"); otherwise
it calls FromHTTPReq on the nil interface hc and panics.  The first result
is the *RemoteSpan, nil on the error return. -/
def FromHTTPReq (c : Client) (_req : Nat) :
    Except GoPanic (Option (List Nat) × Option String) :=
  if c.isHTTPCarrier then .ok (none, some "not supported")
  else .error .nilInterfaceCall

end V2

/-- C7: evaluation at the failing input.  For a configured client that does
not implement the HTTP propagation interface, Span.ToHTTPReq and
FromHTTPReq panic (method call through the nil interface produced by the
failed type assertion) instead of returning a (value, error) pair; and for
a client that does implement it, they return the error "not supported"
because the assertion's ok flag is tested with inverted polarity. -/
theorem ToHTTPReq_nil_carrier_panics :
    V2.ToHTTPReq ⟨false⟩ [1] 0 = .error .nilInterfaceCall
    ∧ V2.FromHTTPReq ⟨false⟩ 0 = .error .nilInterfaceCall
    ∧ V2.ToHTTPReq ⟨true⟩ [1] 0 = .ok (0, some "not supported")
    ∧ V2.FromHTTPReq ⟨true⟩ 0 = .ok (none, some "not supported") :=
  ⟨rfl, rfl, rfl, rfl⟩

/-! ## Span operations, first revision (src/trace.go lines 26-161)

Methods of *Span with an explicit nil-receiver guard.  The receiver is
modelled as Option TSpan (none is the nil pointer); the global client is a
record of the behaviour the methods consult. -/

namespace V1

/-- The configured global client of the first revision: its NewSpan
behaviour, and its optional minitrace.HTTPInjector implementation, which
SpanToReq would supply — a function from request and span id to the
(shallow-copied) request and an error. -/
structure Client where
  newSpan : Option (List Nat) → List Nat
  injector : Option (Nat → List Nat → Nat × Option String)

/-- The finishing function returned by Child/NewSpan: either the package
noop function or a closure that calls client.Finish with the recorded
arguments. -/
inductive FinishFunc where
  | noop
  | finishCall (id : List Nat) (name : String) (linked : List (List Nat))
deriving DecidableEq

/-- Result of invoking a FinishFunc; noop (src/trace.go line 161) returns
the nil error, a finish closure returns whatever client.Finish returns. -/
def FinishFunc.result (clientErr : Option String) : FinishFunc → Option String
  | .noop => none
  | .finishCall _ _ _ => clientErr

/-- Embeds Span.Annotate (src/trace.go lines 38-43): a nil receiver returns
immediately, otherwise the key/value pair is stored in the span's
annotation map. -/
def Annotate (s : Option TSpan) (key : String) (val : List Nat) :
    Option TSpan :=
  match s with
  | none => none
  | some sp => some { sp with Annotations := mapSet sp.Annotations key val }

/-- Embeds Span.Child (src/trace.go lines 48-61): a nil receiver returns
(nil, noop); otherwise a child span with a fresh client id and empty
annotations is returned together with a finish closure. -/
def Child (c : Client) (s : Option TSpan) (name : String)
    (linked : List (List Nat)) : Option TSpan × FinishFunc :=
  match s with
  | none => (none, .noop)
  | some sp =>
    (some { ID := c.newSpan (some sp.ID), Annotations := [] },
     .finishCall (c.newSpan (some sp.ID)) name linked)

/-- Embeds Span.ToHTTPReq (src/trace.go lines 68-77): a nil receiver
returns the request unchanged with a nil error; a client that is not an
HTTPInjector also returns the request unchanged with a nil error; otherwise
the injector runs. -/
def ToHTTPReq (c : Client) (s : Option TSpan) (req : Nat) :
    Nat × Option String :=
  match s with
  | none => (req, none)
  | some sp =>
    match c.injector with
    | none => (req, none)
    | some f => f req sp.ID

end V1

/-- C10: every public span operation on a nil *Span receiver is a safe
no-op: Annotate does nothing, Child returns (nil, noop) and the noop finish
function returns a nil error, ToHTTPReq returns the given request unchanged
with a nil error. -/
theorem nil_span_operations_noop (c : V1.Client) (key name : String)
    (val : List Nat) (linked : List (List Nat)) (req : Nat)
    (clientErr : Option String) :
    V1.Annotate none key val = none
    ∧ V1.Child c none name linked = (none, .noop)
    ∧ V1.FinishFunc.result clientErr .noop = none
    ∧ V1.ToHTTPReq c none req = (req, none) :=
  ⟨rfl, rfl, rfl, rfl⟩

/-! ## Context-carried labels (src/trace/trace.go)

SetLabel (lines 89-98) reads the label map stored under labelsKey in the
context; when the context has none it allocates a fresh map, writes into
it, and returns — without attaching the new map to any context.  Finish
(lines 104-115) hands ctx.Value(labelsKey) to Client.Finish, passing nil
when the context has no map.  Go maps are reference values, so the model
keeps a store (heap) of allocated maps and contexts hold at most a
reference into it.  Nothing in the package ever binds labelsKey, so every
context reachable through the public API (WithClient, WithSpan) has no
labels reference. -/

namespace TraceCtx

/-- The heap of allocated label maps (Go map values live on the heap and
are aliased by reference). -/
structure LStore where
  maps : List (List (String × Nat))
deriving DecidableEq

/-- What a context of package trace/trace.go can carry: whether traceKey is
bound to a client, and an optional reference to a label map under
labelsKey.  The package never binds labelsKey, so labelsRef is none on
every context the public API can produce. -/
structure TCtx where
  hasClient : Bool
  labelsRef : Option Nat
deriving DecidableEq

/-- context.Background(). -/
def Background : TCtx := { hasClient := false, labelsRef := none }

/-- Embeds WithClient (src/trace/trace.go lines 169-171): binds traceKey;
labelsKey is untouched. -/
def WithClient (ctx : TCtx) : TCtx := { ctx with hasClient := true }

/-- Embeds SetLabel (src/trace/trace.go lines 89-98): when the context has
no label map, a fresh one is allocated and written into — and then
discarded, because the context is never updated; when the context holds a
reference, the referenced map is updated in place. -/
def SetLabel (st : LStore) (ctx : TCtx) (key : String) (value : Nat) :
    LStore :=
  match ctx.labelsRef with
  | none => { maps := st.maps ++ [mapSet [] key value] }
  | some r => { maps := st.maps.set r (mapSet (st.maps.getD r []) key value) }

/-- Embeds the labels argument that Finish (src/trace/trace.go lines
104-115) hands to Client.Finish: none when the context carries no client
(Finish is a no-op and calls nothing), some none when Client.Finish is
called with nil labels, some (some m) when it is called with the map m. -/
def FinishLabels (st : LStore) (ctx : TCtx) :
    Option (Option (List (String × Nat))) :=
  if ctx.hasClient then
    some (match ctx.labelsRef with
          | none => none
          | some r => some (st.maps.getD r []))
  else none

end TraceCtx

/-- C8: evaluation at the failing input.  On a context produced by the
public API (here WithClient over Background, which has no labelsKey entry),
SetLabel writes the pair into a freshly allocated map that is immediately
orphaned, and Finish hands nil labels to Client.Finish — the label never
reaches the backend.  The map update itself is last-write-wins, so the
claim fails only because the map is dropped. -/
theorem SetLabel_dropped_before_finish :
    TraceCtx.FinishLabels
        (TraceCtx.SetLabel ⟨[]⟩ (TraceCtx.WithClient TraceCtx.Background) "k" 7)
        (TraceCtx.WithClient TraceCtx.Background)
      = some none
    ∧ (TraceCtx.SetLabel ⟨[]⟩ (TraceCtx.WithClient TraceCtx.Background) "k" 7).maps
      = [[("k", 7)]]
    ∧ mapSet (mapSet [] "k" 7) "k" 8 = [("k", 8)] :=
  ⟨rfl, rfl, rfl⟩

/-! ## Batching exporter (src/gcp/trace.go lines 141-154, src/unnamed/part_007
lines 56-68)

NewClient configures a bundler with DelayThreshold 2s, BundleCountThreshold
100, BundleByteThreshold 1000 (each item counted as one byte, per the code
comment), and a handler closure that uploads the batch and logs on
failure. -/

/-- The three numeric thresholds NewClient sets on the bundler. -/
structure BundlerConfig where
  delayThreshold : Nat
  countThreshold : Nat
  byteThreshold : Nat
deriving DecidableEq

/-- Buffered items not yet flushed, and the batches handed to the handler
function so far, oldest first. -/
structure BundlerState (A : Type) where
  buffer : List A
  flushes : List (List A)
deriving DecidableEq

/-- Modelled from the spec: the bundler implementation
(google.golang.org/api/support/bundler) is an external collaborator and its
source is not part of this repository; this models the Submit operation
from the specification of the Exporter: "Submit(item) enqueues a finished
span/trace; if the queue reaches countThreshold or byteThreshold, a flush
is triggered immediately", with each item counting as one byte as the
configuring code's comment states.  A flush hands the accumulated batch to
the handler (which uploads it) and clears the buffer; nothing is ever put
back.  Timer-driven flushing (delayThreshold) never fires while no time
elapses and is outside this immediate-submission model. -/
def bundlerSubmit {A : Type} (cfg : BundlerConfig) (st : BundlerState A)
    (x : A) : BundlerState A :=
  let buf := st.buffer ++ [x]
  if cfg.countThreshold ≤ buf.length ∨ cfg.byteThreshold ≤ buf.length then
    { buffer := [], flushes := st.flushes ++ [buf] }
  else
    { buffer := buf, flushes := st.flushes }

/-- Submitting a list of items to a fresh bundler, in order. -/
def bundlerRun {A : Type} (cfg : BundlerConfig) (xs : List A) :
    BundlerState A :=
  xs.foldl (bundlerSubmit cfg) ⟨[], []⟩

/-- As long as neither threshold is reached, submissions only accumulate. -/
theorem bundlerSubmit_accumulate {A : Type} (cfg : BundlerConfig) :
    ∀ (xs : List A) (st : BundlerState A),
      st.buffer.length + xs.length < cfg.countThreshold →
      st.buffer.length + xs.length < cfg.byteThreshold →
      xs.foldl (bundlerSubmit cfg) st
        = { buffer := st.buffer ++ xs, flushes := st.flushes } := by
  intro xs
  induction xs with
  | nil => intro st _ _; simp
  | cons x xs ih =>
    intro st hc hb
    simp only [List.length_cons] at hc hb
    have hstep : bundlerSubmit cfg st x
        = { buffer := st.buffer ++ [x], flushes := st.flushes } := by
      unfold bundlerSubmit
      rw [if_neg]
      push_neg
      constructor <;> (simp; omega)
    rw [List.foldl_cons, hstep]
    rw [ih { buffer := st.buffer ++ [x], flushes := st.flushes }
        (by simp; omega) (by simp; omega)]
    simp

/-- A log line emitted by the handler closure in NewClient:
"failed to upload %d traces to the Cloud Trace server." -/
inductive LogEvent where
  | uploadFailed (count : Nat)
deriving DecidableEq

/-- Observable effect of one run of the handler closure: log lines emitted,
items handed back to the bundler for a retry, and the error surfaced to the
caller that finished the span. -/
structure HandlerOut where
  logs : List LogEvent
  requeued : List Nat
  callerErr : Option String
deriving DecidableEq

/-- Embeds the handler closure of NewClient (src/gcp/trace.go lines
141-147): it uploads the batch and, when the upload returns an error, logs
the failure.  The closure's Go type func(interface{}) returns nothing, so
no error can flow back to any caller, and no statement re-enqueues the
batch, so nothing is retried; uploadErr is the result of c.upload on the
batch. -/
def handleBundle (uploadErr : Option String) (batch : List Nat) :
    HandlerOut :=
  { logs := match uploadErr with
            | some _ => [.uploadFailed batch.length]
            | none => []
  , requeued := []
  , callerErr := none }

/-- C3: when the upload of a batch fails, the handler logs the failure and
surfaces no error to the instrumented caller and re-enqueues nothing; and a
flush removes the batch from the buffer unconditionally — the upload
outcome never feeds back into the bundler state, so the failed batch is
dropped without retry. -/
theorem upload_failure_logged_and_dropped (msg : String) (batch : List Nat)
    (cfg : BundlerConfig) (st : BundlerState Nat) (x : Nat)
    (htrig : cfg.countThreshold ≤ st.buffer.length + 1) :
    (handleBundle (some msg) batch).logs = [.uploadFailed batch.length]
    ∧ (handleBundle (some msg) batch).requeued = []
    ∧ (handleBundle (some msg) batch).callerErr = none
    ∧ (bundlerSubmit cfg st x).buffer = []
    ∧ (bundlerSubmit cfg st x).flushes = st.flushes ++ [st.buffer ++ [x]] := by
  refine ⟨rfl, rfl, rfl, ?_, ?_⟩ <;>
  · unfold bundlerSubmit
    rw [if_pos]
    left
    simp
    omega

theorem upload_failure_logged_and_dropped_witness :
    (handleBundle (some "e") [5]).logs = [.uploadFailed 1]
    ∧ (bundlerSubmit ⟨2, 1, 1⟩ ⟨[], []⟩ 5).buffer = []
    ∧ (bundlerSubmit ⟨2, 1, 1⟩ ⟨[], []⟩ 5).flushes = [[5]] := by
  have h := upload_failure_logged_and_dropped "e" [5] ⟨2, 1, 1⟩ ⟨[], []⟩ 5
    (by decide)
  exact ⟨h.1, h.2.2.2.1, h.2.2.2.2⟩

/-- C9: submitting exactly countThreshold items to a fresh bundler, with no
time elapsing, flushes exactly one batch, containing exactly those
countThreshold items, to the handler (which hands it to the backend upload
function), and leaves the buffer empty.  Hypotheses match the configuration
in NewClient: a positive count threshold no larger than the byte threshold
(100 and 1000). -/
theorem bundler_count_threshold_flush (cfg : BundlerConfig)
    (xs : List Nat) (hpos : 1 ≤ cfg.countThreshold)
    (hle : cfg.countThreshold ≤ cfg.byteThreshold)
    (hlen : xs.length = cfg.countThreshold) :
    bundlerRun cfg xs = { buffer := [], flushes := [xs] } := by
  rcases List.eq_nil_or_concat xs with hnil | ⟨ys, z, hys⟩
  · rw [hnil] at hlen
    simp at hlen
    omega
  · rw [List.concat_eq_append] at hys
    subst hys
    unfold bundlerRun
    rw [List.foldl_append]
    have hylen : ys.length + 1 = cfg.countThreshold := by
      simpa using hlen
    rw [bundlerSubmit_accumulate cfg ys ⟨[], []⟩ (by simp; omega)
        (by simp; omega)]
    unfold bundlerSubmit
    simp only [List.foldl_cons, List.foldl_nil]
    rw [if_pos]
    · simp
    · left
      simp
      omega

theorem bundler_count_threshold_flush_witness :
    bundlerRun ⟨2, 100, 1000⟩ (List.range 100)
      = { buffer := [], flushes := [List.range 100] } :=
  bundler_count_threshold_flush ⟨2, 100, 1000⟩ (List.range 100)
    (by decide) (by decide) (by decide)

/-! ## Trace/span tree assembly (src/unnamed/part_007 lines 78-118, 168-234;
the same code shape in src/gcp/trace.go lines 164-186)

Client.NewSpan reads the parent span from the context; with no parent it
mints a span id plus a trace id (two further generator draws) and creates a
fresh trace containing the new root span with the zero parent id; with a
parent it appends the child, carrying parentID := parent.id, to the
parent's trace.  Client.Finish stamps the end time on the context's span.
The heap of trace objects is an arena (a list), a *span pointer is an
(arena index, span index) pair, and a context is its latest span pointer or
none; contexts ever created are kept in an arena so that operations can
name them.  Wall-clock time is a monotone counter advanced by explicit tick
steps; NewSpan and Finish read it for time.Now(). -/

namespace Gcp

/-- The span struct (src/unnamed/part_007 lines 201-211): parentID is the
Go zero value 0 until assigned, endTime is the zero time until Finish. -/
structure GSpan where
  parentID : Nat
  id : Nat
  name : String
  start : Nat
  endTime : Option Nat
deriving DecidableEq

/-- The trace struct (src/unnamed/part_007 lines 168-173): a trace id (the
two generator draws behind the hex string of nextTraceID) and the
append-only span list guarded by the trace lock. -/
structure GTrace where
  id : Nat × Nat
  spans : List GSpan
deriving DecidableEq

/-- A *span pointer: index of the owning trace in the arena, and index of
the span within that trace. -/
structure SpanRef where
  t : Nat
  s : Nat
deriving DecidableEq

/-- Global state: the monotone clock, the generator counter and increment,
the arena of traces, and the arena of contexts (each context is its current
span pointer, none for the background context). -/
structure World where
  now : Nat
  counter : Nat
  inc : Nat
  traces : List GTrace
  ctxs : List (Option SpanRef)
deriving DecidableEq

/-- An operation against the tracing client: NewSpan on the context with
the given arena index (appending the derived context), Finish on a context,
or the passage of time. -/
inductive WOp where
  | newSpan (ctxIdx : Nat) (name : String)
  | finish (ctxIdx : Nat)
  | tick (d : Nat)
deriving DecidableEq

/-- Process start (init in src/unnamed/part_007 lines 138-145): counter and
increment seeded, increment forced odd by an or with 1; the background
context is context index 0. -/
def initWorld (seedCounter seedInc : Nat) : World :=
  { now := 0
  , counter := seedCounter % wordSize
  , inc := seedInc ||| 1
  , traces := []
  , ctxs := [none] }

/-- One operation.  An out-of-range context or a dangling span pointer has
no Go counterpart and leaves the state unchanged. -/
def applyOp (w : World) (op : WOp) : World :=
  match op with
  | .tick d => { w with now := w.now + d }
  | .newSpan i name =>
    match w.ctxs[i]? with
    | none => w
    | some none =>
      { w with
          counter := nextSpanID w.inc (nextSpanID w.inc (nextSpanID w.inc w.counter))
        , traces := w.traces ++
            [{ id := (nextSpanID w.inc (nextSpanID w.inc w.counter),
                      nextSpanID w.inc (nextSpanID w.inc (nextSpanID w.inc w.counter)))
             , spans := [{ parentID := 0
                         , id := nextSpanID w.inc w.counter
                         , name := name
                         , start := w.now
                         , endTime := none }] }]
        , ctxs := w.ctxs ++ [some ⟨w.traces.length, 0⟩] }
    | some (some ref) =>
      match w.traces[ref.t]? with
      | none => w
      | some tr =>
        match tr.spans[ref.s]? with
        | none => w
        | some parent =>
          { w with
              counter := nextSpanID w.inc w.counter
            , traces := w.traces.set ref.t
                ({ tr with spans := tr.spans ++
                    [{ parentID := parent.id
                     , id := nextSpanID w.inc w.counter
                     , name := name
                     , start := w.now
                     , endTime := none }] })
            , ctxs := w.ctxs ++ [some ⟨ref.t, tr.spans.length⟩] }
  | .finish i =>
    match w.ctxs[i]? with
    | none => w
    | some none => w
    | some (some ref) =>
      match w.traces[ref.t]? with
      | none => w
      | some tr =>
        match tr.spans[ref.s]? with
        | none => w
        | some sp =>
          { w with traces := w.traces.set ref.t ({ tr with spans := tr.spans.set ref.s ({ sp with endTime := some w.now }) }) }

/-- A whole execution from process start. -/
def run (seedCounter seedInc : Nat) (ops : List WOp) : World :=
  ops.foldl applyOp (initWorld seedCounter seedInc)

/-- Every span is a root (parent id 0) or names the span id of a span
recorded in the same trace. -/
def parentOK (w : World) : Prop :=
  ∀ tr ∈ w.traces, ∀ sp ∈ tr.spans,
    sp.parentID = 0 ∨ sp.parentID ∈ tr.spans.map GSpan.id

/-- Every span started no later than now, and a finished span's end time
lies between its start time and now. -/
def timeOK (w : World) : Prop :=
  ∀ tr ∈ w.traces, ∀ sp ∈ tr.spans,
    sp.start ≤ w.now ∧ ∀ e, sp.endTime = some e → sp.start ≤ e ∧ e ≤ w.now

/-- The reachable-state invariant. -/
def WInv (w : World) : Prop := parentOK w ∧ timeOK w

/-- Replacing a span by one with the same id leaves the trace's id list
unchanged. -/
theorem map_id_set :
    ∀ (l : List GSpan) (i : Nat) (a b : GSpan),
      l[i]? = some a → b.id = a.id →
      (l.set i b).map GSpan.id = l.map GSpan.id := by
  intro l
  induction l with
  | nil => intro i a b h _; simp at h
  | cons x xs ih =>
    intro i a b h hid
    cases i with
    | zero =>
      simp only [List.getElem?_cons_zero, Option.some_inj] at h
      subst h
      simp [hid]
    | succ n =>
      simp only [List.getElem?_cons_succ] at h
      simp [ih n a b h hid]

theorem winv_init (seedCounter seedInc : Nat) :
    WInv (initWorld seedCounter seedInc) := by
  constructor
  · intro tr htr
    simp [initWorld] at htr
  · intro tr htr
    simp [initWorld] at htr

theorem winv_applyOp (w : World) (op : WOp) (h : WInv w) :
    WInv (applyOp w op) := by
  obtain ⟨hpar, htime⟩ := h
  cases op with
  | tick d =>
    refine ⟨hpar, ?_⟩
    intro tr htr sp hsp
    obtain ⟨h1, h2⟩ := htime tr htr sp hsp
    refine ⟨le_trans h1 (Nat.le_add_right _ _), ?_⟩
    intro e he
    exact ⟨(h2 e he).1, le_trans (h2 e he).2 (Nat.le_add_right _ _)⟩
  | newSpan i name =>
    show WInv (applyOp w (.newSpan i name))
    simp only [applyOp]
    split
    next => exact ⟨hpar, htime⟩
    next =>
      constructor
      · intro tr htr sp hsp
        rcases List.mem_append.mp htr with hold | hnew
        · exact hpar tr hold sp hsp
        · rw [List.mem_singleton] at hnew
          subst hnew
          rw [List.mem_singleton] at hsp
          subst hsp
          left
          rfl
      · intro tr htr sp hsp
        rcases List.mem_append.mp htr with hold | hnew
        · exact htime tr hold sp hsp
        · rw [List.mem_singleton] at hnew
          subst hnew
          rw [List.mem_singleton] at hsp
          subst hsp
          refine ⟨le_refl _, ?_⟩
          intro e he
          cases he
    next ref heq1 =>
      split
      next => exact ⟨hpar, htime⟩
      next tr heq2 =>
        split
        next => exact ⟨hpar, htime⟩
        next parent heq3 =>
          have htrmem : tr ∈ w.traces := List.getElem?_mem heq2
          have hparmem : parent ∈ tr.spans := List.getElem?_mem heq3
          constructor
          · intro trx htrx sp hsp
            rcases List.mem_or_eq_of_mem_set htrx with hold | hnew
            · exact hpar trx hold sp hsp
            · subst hnew
              rcases List.mem_append.mp hsp with hsold | hsnew
              · rcases hpar tr htrmem sp hsold with h0 | hin
                · exact Or.inl h0
                · right
                  rw [List.map_append]
                  exact List.mem_append_left _ hin
              · rw [List.mem_singleton] at hsnew
                subst hsnew
                right
                rw [List.map_append]
                exact List.mem_append_left _ (List.mem_map_of_mem GSpan.id hparmem)
          · intro trx htrx sp hsp
            rcases List.mem_or_eq_of_mem_set htrx with hold | hnew
            · exact htime trx hold sp hsp
            · subst hnew
              rcases List.mem_append.mp hsp with hsold | hsnew
              · exact htime tr htrmem sp hsold
              · rw [List.mem_singleton] at hsnew
                subst hsnew
                refine ⟨le_refl _, ?_⟩
                intro e he
                cases he
  | finish i =>
    show WInv (applyOp w (.finish i))
    simp only [applyOp]
    split
    next => exact ⟨hpar, htime⟩
    next => exact ⟨hpar, htime⟩
    next ref heq1 =>
      split
      next => exact ⟨hpar, htime⟩
      next tr heq2 =>
        split
        next => exact ⟨hpar, htime⟩
        next sp heq3 =>
          have htrmem : tr ∈ w.traces := List.getElem?_mem heq2
          have hspmem : sp ∈ tr.spans := List.getElem?_mem heq3
          have hmap : (tr.spans.set ref.s { sp with endTime := some w.now }).map GSpan.id
              = tr.spans.map GSpan.id :=
            map_id_set tr.spans ref.s sp _ heq3 rfl
          constructor
          · intro trx htrx spx hspx
            rcases List.mem_or_eq_of_mem_set htrx with hold | hnew
            · exact hpar trx hold spx hspx
            · subst hnew
              rcases List.mem_or_eq_of_mem_set hspx with hsold | hsnew
              · rcases hpar tr htrmem spx hsold with h0 | hin
                · exact Or.inl h0
                · right
                  rw [hmap]
                  exact hin
              · subst hsnew
                rcases hpar tr htrmem sp hspmem with h0 | hin
                · exact Or.inl h0
                · right
                  rw [hmap]
                  exact hin
          · intro trx htrx spx hspx
            rcases List.mem_or_eq_of_mem_set htrx with hold | hnew
            · exact htime trx hold spx hspx
            · subst hnew
              rcases List.mem_or_eq_of_mem_set hspx with hsold | hsnew
              · exact htime tr htrmem spx hsold
              · subst hsnew
                obtain ⟨h1, _⟩ := htime tr htrmem sp hspmem
                refine ⟨h1, ?_⟩
                intro e he
                simp only [Option.some_inj] at he
                subst he
                exact ⟨h1, le_refl _⟩


theorem winv_run (seedCounter seedInc : Nat) (ops : List WOp) :
    WInv (run seedCounter seedInc ops) := by
  have hgen : ∀ (l : List WOp) (w : World), WInv w → WInv (l.foldl applyOp w) := by
    intro l
    induction l with
    | nil => intro w hw; exact hw
    | cons op l ih =>
      intro w hw
      exact ih (applyOp w op) (winv_applyOp w op hw)
  exact hgen ops _ (winv_init seedCounter seedInc)

end Gcp

/-- C2: in every reachable trace state, a span created with no parent (a
root) has parent id zero — witnessed by the shape of the trace a NewSpan on
a span-free context appends — and every span's parent id is either zero or
the span id of a span recorded in the same trace; creating and finishing
spans (any operation sequence) preserves this. -/
theorem newSpan_parent_invariant (seedC seedI : Nat) (ops : List Gcp.WOp) :
    (∀ tr ∈ (Gcp.run seedC seedI ops).traces, ∀ sp ∈ tr.spans,
        sp.parentID = 0 ∨ sp.parentID ∈ tr.spans.map Gcp.GSpan.id)
    ∧ (∀ i name, (Gcp.run seedC seedI ops).ctxs[i]? = some none →
        ∃ tr, (Gcp.applyOp (Gcp.run seedC seedI ops)
                  (.newSpan i name)).traces
            = (Gcp.run seedC seedI ops).traces ++ [tr]
          ∧ ∃ sp, tr.spans = [sp] ∧ sp.parentID = 0) := by
  constructor
  · exact (Gcp.winv_run seedC seedI ops).1
  · intro i name h
    simp only [Gcp.applyOp]
    split
    next heq =>
      rw [h] at heq
      cases heq
    next heq =>
      exact ⟨_, rfl, _, rfl, rfl⟩
    next ref heq =>
      rw [h] at heq
      simp at heq

theorem newSpan_parent_invariant_witness :
    ({ parentID := 8, id := 17, name := "child", start := 0,
       endTime := none } : Gcp.GSpan).parentID = 0
    ∨ ({ parentID := 8, id := 17, name := "child", start := 0,
         endTime := none } : Gcp.GSpan).parentID
      ∈ ({ id := (11, 14)
         , spans := [{ parentID := 0, id := 8, name := "root", start := 0,
                       endTime := none },
                     { parentID := 8, id := 17, name := "child", start := 0,
                       endTime := none }] } : Gcp.GTrace).spans.map
          Gcp.GSpan.id :=
  (newSpan_parent_invariant 5 2 [.newSpan 0 "root", .newSpan 1 "child"]).1
    _ (by decide) _ (by decide)

/-- C4: in every reachable trace state, a finished span's end time (sampled
by Finish from the monotone clock) is at least its start time (sampled at
creation). -/
theorem finished_span_end_ge_start (seedC seedI : Nat) (ops : List Gcp.WOp) :
    ∀ tr ∈ (Gcp.run seedC seedI ops).traces, ∀ sp ∈ tr.spans,
      ∀ e, sp.endTime = some e → sp.start ≤ e := by
  intro tr htr sp hsp e he
  exact (((Gcp.winv_run seedC seedI ops).2 tr htr sp hsp).2 e he).1

theorem finished_span_end_ge_start_witness :
    ({ parentID := 0, id := 1, name := "a", start := 0,
       endTime := some 7 } : Gcp.GSpan).start ≤ 7 :=
  finished_span_end_ge_start 0 0 [.newSpan 0 "a", .tick 7, .finish 1]
    { id := (2, 3)
    , spans := [{ parentID := 0, id := 1, name := "a", start := 0,
                  endTime := some 7 }] }
    (by decide)
    { parentID := 0, id := 1, name := "a", start := 0, endTime := some 7 }
    (by decide) 7 (by decide)
